import Mathlib

/-!
# Verification of the canonical Gaussian factor algebra (pgmpy `CanonicalFactor`)

A shallow embedding of `pgmpy/factors/continuous/CanonicalFactor.py`.
Real-number arithmetic of the source (numpy arrays of floats) is modelled
exactly over `ℚ`; numpy matrices and column vectors become nested lists of
rationals.  Fallible operations (`__init__` validation, `np.linalg.inv`)
return `Except`/`Option`.
-/

set_option autoImplicit false

namespace PgmpyCanonical

/-- A numpy 2-d array of floats, modelled as a list of rows of rationals. -/
abbrev Mat := List (List ℚ)

/-- `np.dot` of two equal-length 1-d vectors. -/
def dot (a b : List ℚ) : ℚ := (List.zipWith (· * ·) a b).sum

/-- `np.dot(M, y)` of a matrix with a column vector, as a flat list. -/
def matVec (M : Mat) (v : List ℚ) : List ℚ := M.map (fun row => dot row v)

/-- `M[np.ix_(rows, cols)]`: the submatrix of `M` picking the given row and
column index lists, in the order given. -/
def ix (M : Mat) (rows cols : List Nat) : Mat :=
  rows.map (fun i => cols.map (fun j => (M.getD i []).getD j 0))

/-- Elementwise subtraction of two column vectors. -/
def vsub (a b : List ℚ) : List ℚ := List.zipWith (· - ·) a b

/-- `np.dot(np.dot(y.T, M), y)`, the scalar quadratic form. -/
def quadForm (y : List ℚ) (M : Mat) : ℚ := dot y (matVec M y)

/-- The value stored in the Python attribute `g`: a scalar at construction,
but a `1 × 1` numpy array after `reduce` (numpy `dot` of `(1,m)` by `(m,1)`
yields a `(1,1)` array, and adding the scalar `g` broadcasts). -/
inductive GVal where
  | scalar (q : ℚ)
  | mat (m : Mat)
deriving DecidableEq

/-- Whether the stored `g` is a Python scalar (not a numpy array). -/
def GVal.isScalar : GVal → Bool
  | .scalar _ => true
  | .mat _ => false

/-- The numeric content of the stored `g` (the sole entry when it is a
`1 × 1` array, as numpy broadcasting reads it). -/
def GVal.toQ : GVal → ℚ
  | .scalar q => q
  | .mat m => (m.getD 0 []).getD 0 0

/-- Modelled from the spec: the moment-form Gaussian entity
(`JointGaussianDistribution`, whose class is not part of the sources here)
is constructed from a scope, an `n × 1` mean and an `n × n` covariance. -/
structure JointGaussianDistribution where
  vars : List String
  mean : List ℚ
  covariance : Mat
deriving DecidableEq

/-- Modelled from the spec: the density-evaluation capability exposed by the
moment-form Gaussian, represented by the distribution it was derived from
(density functions are stateless). -/
structure Density where
  dist : JointGaussianDistribution
deriving DecidableEq

/-- Modelled from the spec: the moment-form Gaussian exposes its density
function (`JointGaussianDistribution.pdf`). -/
def JointGaussianDistribution.density (j : JointGaussianDistribution) : Density :=
  ⟨j⟩

/-- The error kinds the source can raise on the paths under study. -/
inductive PyError where
  | valueError
  | attributeError
  | typeError
  | linAlgError
deriving DecidableEq

/-- The state of a constructed `CanonicalFactor` object: the ordered scope,
the `K` matrix, the `h` column vector (stored as a flat list of the column
entries), the `g` attribute, and the lazily bound density function. -/
structure CanonicalFactor where
  vars : List String
  K : Mat
  h : List ℚ
  g : GVal
  pdf : Option Density
deriving DecidableEq

/-- `CanonicalFactor.__init__`: checks `len(h)` against the number of
variables (raising `ValueError` on mismatch), then checks `K.shape` against
`(n, n)`; on that mismatch the source tries to raise a `ValueError` naming
the shapes but evaluates `self.covariance.shape` first, an attribute that
does not exist, so an `AttributeError` escapes instead. -/
def CanonicalFactor.init (vs : List String) (K : Mat) (h : List ℚ)
    (g : ℚ) (pdf : Option Density) : Except PyError CanonicalFactor :=
  if h.length ≠ vs.length then
    .error PyError.valueError
  else if K.length = vs.length ∧ ∀ row ∈ K, row.length = vs.length then
    .ok { vars := vs, K := K, h := h, g := GVal.scalar g, pdf := pdf }
  else
    .error PyError.attributeError

/-- Python `sorted` on `(index, value)` pairs: a stable insertion of one pair
into a list sorted by the lexicographic tuple order. -/
def insertPair (p : Nat × ℚ) : List (Nat × ℚ) → List (Nat × ℚ)
  | [] => [p]
  | q :: rest =>
    if p.1 < q.1 ∨ (p.1 = q.1 ∧ p.2 ≤ q.2) then p :: q :: rest
    else q :: insertPair p rest

/-- Python `sorted` on `(index, value)` pairs (insertion sort; the order is
total so the result agrees with any sorting algorithm). -/
def sortPairs : List (Nat × ℚ) → List (Nat × ℚ)
  | [] => []
  | p :: rest => insertPair p (sortPairs rest)

/-- The parameter update of `CanonicalFactor.reduce`, i.e. the state of the
target instance (`self` when `inplace`, the copy otherwise) after the call:
index lists are built with `list.index` in the order the caller supplied
`values`, the blocks of `K` and `h` are extracted with `np.ix_` from those
lists, the observation vector `y` is the value list sorted by each
variable's index in the original scope, and the new `g` is the `(1,1)`
array `self.g + h_j.T·y − 0.5·y.T·K_j_j·y`.  The bound density is reset. -/
def reduceCore (f : CanonicalFactor) (values : List (String × ℚ)) : CanonicalFactor :=
  let l := f.vars
  let var_to_reduce := values.map Prod.fst
  let index_to_keep :=
    (l.filter (fun v => decide (v ∉ var_to_reduce))).map (fun v => l.indexOf v)
  let index_to_reduce := var_to_reduce.map (fun v => l.indexOf v)
  let K_i_i := ix f.K index_to_keep index_to_keep
  let K_i_j := ix f.K index_to_keep index_to_reduce
  let K_j_j := ix f.K index_to_reduce index_to_reduce
  let h_i := index_to_keep.map (fun i => f.h.getD i 0)
  let h_j := index_to_reduce.map (fun i => f.h.getD i 0)
  let y := (sortPairs (values.map (fun p => (l.indexOf p.1, p.2)))).map Prod.snd
  { vars := index_to_keep.map (fun i => l.getD i ""),
    K := K_i_i,
    h := vsub h_i (matVec K_i_j y),
    g := GVal.mat [[f.g.toQ + dot h_j y - (1 / 2) * quadForm y K_j_j]],
    pdf := none }

/-- The result type of the reduction as the spec states it: a scope, the
`K'` matrix, the `h'` vector and a *scalar* `g'`. -/
structure SpecResult where
  scope : List String
  K : Mat
  h : List ℚ
  g : ℚ
deriving DecidableEq

/-- The reduction formula as the spec words it: index lists are the
positions of the kept and the reduced variables within the *original*
scope (in scope order), `y` is the value list sorted by original-scope
index, and `K' = K_kk`, `h' = h_k − K_kr·y`,
`g' = g + h_r.T·y − 0.5·y.T·K_rr·y`. -/
def reduceSpec (f : CanonicalFactor) (values : List (String × ℚ)) : SpecResult :=
  let l := f.vars
  let reduced := values.map Prod.fst
  let idx_keep := (List.range l.length).filter (fun i => decide (l.getD i "" ∉ reduced))
  let idx_reduce := (List.range l.length).filter (fun i => decide (l.getD i "" ∈ reduced))
  let y := (sortPairs (values.map (fun p => (l.indexOf p.1, p.2)))).map Prod.snd
  { scope := idx_keep.map (fun i => l.getD i ""),
    K := ix f.K idx_keep idx_keep,
    h := vsub (idx_keep.map (fun i => f.h.getD i 0)) (matVec (ix f.K idx_keep idx_reduce) y),
    g := f.g.toQ + dot (idx_reduce.map (fun i => f.h.getD i 0)) y
      - (1 / 2) * quadForm y (ix f.K idx_reduce idx_reduce) }

/-- The entries of a stored matrix as a Mathlib matrix over `Fin n`. -/
def toMat (n : Nat) (K : Mat) : Matrix (Fin n) (Fin n) ℚ :=
  Matrix.of fun i j => (K.getD i.val []).getD j.val 0

/-- The entries of a stored column vector as a Mathlib vector over `Fin n`. -/
def toVecF (n : Nat) (h : List ℚ) : Fin n → ℚ := fun i => h.getD i.val 0

/-- A Mathlib matrix rendered back as a nested list. -/
def ofMat (n : Nat) (M : Matrix (Fin n) (Fin n) ℚ) : Mat :=
  (List.finRange n).map (fun i => (List.finRange n).map (fun j => M i j))

/-- `np.linalg.inv`, idealized over exact rationals: the mathematical
inverse `det⁻¹ · adjugate` when the matrix is invertible, and the
`LinAlgError` signal (`none`) when it is singular. -/
def npLinalgInv (K : Mat) : Option Mat :=
  if (toMat K.length K).det = 0 then none
  else some (ofMat K.length (((toMat K.length K).det)⁻¹ • (toMat K.length K).adjugate))

/-- `CanonicalFactor.to_joint_gaussian`: `covariance = inv(K)`,
`mean = covariance·h`, packaged with the same scope; `np.linalg.inv`
raises `LinAlgError` on a singular `K` and the method does not catch it. -/
def CanonicalFactor.to_joint_gaussian (f : CanonicalFactor) :
    Except PyError JointGaussianDistribution :=
  match npLinalgInv f.K with
  | none => .error PyError.linAlgError
  | some cov => .ok { vars := f.vars, mean := matVec cov f.h, covariance := cov }

/-- `CanonicalFactor.assignment`: if no density function is bound, bind the
one of the equivalent moment-form Gaussian (which can fail on singular `K`),
then evaluate it; the result is the state of `self` after the call together
with the density function used. -/
def CanonicalFactor.assignment (f : CanonicalFactor) :
    Except PyError (CanonicalFactor × Density) :=
  match f.pdf with
  | some d => .ok (f, d)
  | none =>
    match f.to_joint_gaussian with
    | .error e => .error e
    | .ok j => .ok ({ f with pdf := some j.density }, j.density)

/-- A heap of numpy arrays, making storage identity explicit: addresses are
indices into the allocation list. -/
structure Heap where
  mats : List Mat
deriving DecidableEq

/-- The array stored at an address. -/
def Heap.read (σ : Heap) (r : Nat) : Mat := σ.mats.getD r []

/-- Allocate a fresh array; returns the new heap and the fresh address. -/
def Heap.alloc (σ : Heap) (m : Mat) : Heap × Nat :=
  (⟨σ.mats ++ [m]⟩, σ.mats.length)

/-- Overwrite the array at an address (mutating a numpy array in place). -/
def Heap.write (σ : Heap) (r : Nat) (m : Mat) : Heap :=
  ⟨σ.mats.set r m⟩

/-- A `CanonicalFactor` object whose `K` and `h` attributes reference arrays
on the heap (`h` as an `n × 1` column). -/
structure CFRef where
  vars : List String
  Kref : Nat
  href : Nat
  g : GVal
  pdf : Option Density
deriving DecidableEq

/-- A flat list stored as an `n × 1` numpy column. -/
def listToCol (h : List ℚ) : Mat := h.map (fun q => [q])

/-- The entries of an `n × 1` numpy column as a flat list. -/
def colToList (m : Mat) : List ℚ := m.map (fun row => row.getD 0 0)

/-- The value-level state of a heap-allocated factor. -/
def CFRef.toVal (σ : Heap) (f : CFRef) : CanonicalFactor :=
  { vars := f.vars, K := σ.read f.Kref, h := colToList (σ.read f.href),
    g := f.g, pdf := f.pdf }

/-- `CanonicalFactor.copy`: a new object built through the constructor from
`self.scope()`, `self.K.copy()`, `self.h.copy()`, `self.g` and `self.pdf`:
fresh storage holding equal values for `K` and `h`, the same scope and `g`,
and the same (shared) density-function reference. -/
def copyRef (σ : Heap) (f : CFRef) : Heap × CFRef :=
  let aK := σ.alloc (σ.read f.Kref)
  let ah := aK.1.alloc (σ.read f.href)
  (ah.1, { f with Kref := aK.2, href := ah.2 })

/-- `CanonicalFactor.reduce` at the heap level.  The target `phi` is `self`
when `inplace` and `self.copy()` otherwise; the new parameters are computed
from `self`'s current arrays and stored in freshly created arrays (numpy
fancy indexing copies), which are then bound to `phi`'s attributes.  Returns
the heap, the state of `self` after the call, and the Python return value
(`None` when `inplace`). -/
def reduceRef (σ : Heap) (f : CFRef) (values : List (String × ℚ)) (inplace : Bool) :
    Heap × CFRef × Option CFRef :=
  let v := reduceCore (f.toVal σ) values
  if inplace then
    let aK := σ.alloc v.K
    let ah := aK.1.alloc (listToCol v.h)
    (ah.1, { vars := v.vars, Kref := aK.2, href := ah.2, g := v.g, pdf := none }, none)
  else
    let c := copyRef σ f
    let aK := c.1.alloc v.K
    let ah := aK.1.alloc (listToCol v.h)
    (ah.1, f, some { vars := v.vars, Kref := aK.2, href := ah.2, g := v.g, pdf := none })

/-- The worked example of the spec and of the source docstring. -/
def exampleFactor : CanonicalFactor :=
  { vars := ["X1", "X2", "X3"],
    K := [[1, -1, 0], [-1, 4, -2], [0, -2, 4]],
    h := [1, 4, -1],
    g := GVal.scalar (-2),
    pdf := none }

/-- A small well-formed factor used by several witnesses. -/
def smallFactor : CanonicalFactor :=
  { vars := ["X"], K := [[1]], h := [1], g := GVal.scalar 0, pdf := none }

/-- The moment-conversion example of the source docstring. -/
def gaussFactor : CanonicalFactor :=
  { vars := ["x1", "x2"], K := [[3, -2], [-2, 4]], h := [5, -1],
    g := GVal.scalar 1, pdf := none }

/-! ### Helper lemmas on lists and indices -/

theorem map_indexOf_cons {a : String} {s l : List String} (ha : a ∉ l)
    (hs : ∀ x ∈ s, x ∈ l) :
    s.map (fun x => (a :: l).indexOf x) = (s.map (fun x => l.indexOf x)).map (· + 1) := by
  rw [List.map_map]
  refine List.map_congr_left (fun x hx => ?_)
  have hxl : x ∈ l := hs x hx
  have hne : a ≠ x := fun h => ha (h ▸ hxl)
  simp [List.indexOf_cons_ne _ hne, Nat.succ_eq_add_one]

theorem getD_mem_of_lt {α : Type} {l : List α} {i : Nat} (d : α) (h : i < l.length) :
    l.getD i d ∈ l := by
  rw [List.getD_eq_getElem _ _ h]
  exact List.getElem_mem h

theorem map_indexOf_sublist (d : String) {s l : List String} (hsub : s.Sublist l)
    (hnodup : l.Nodup) :
    s.map (fun x => l.indexOf x) =
      (List.range l.length).filter (fun i => decide (l.getD i d ∈ s)) := by
  induction hsub with
  | slnil => rfl
  | @cons s l a hsub ih =>
    obtain ⟨ha, hl⟩ := List.nodup_cons.mp hnodup
    have has : a ∉ s := fun h => ha (hsub.subset h)
    have hcomp : ((fun i => decide ((a :: l).getD i d ∈ s)) ∘ Nat.succ) =
        (fun i => decide (l.getD i d ∈ s)) := by
      funext i
      simp [Function.comp, List.getD_cons_succ]
    rw [map_indexOf_cons ha hsub.subset, ih hl, List.length_cons,
      List.range_succ_eq_map, List.filter_cons, if_neg (by simp [has]),
      List.filter_map, hcomp]
  | @cons₂ s l a hsub ih =>
    obtain ⟨ha, hl⟩ := List.nodup_cons.mp hnodup
    have hcongr : ∀ i ∈ List.range l.length,
        ((fun i => decide ((a :: l).getD i d ∈ a :: s)) ∘ Nat.succ) i =
          (fun i => decide (l.getD i d ∈ s)) i := by
      intro i hi
      have hi' : i < l.length := List.mem_range.mp hi
      have hmem : l.getD i d ∈ l := getD_mem_of_lt d hi'
      have hne : l.getD i d ≠ a := fun h => ha (h ▸ hmem)
      show decide ((a :: l).getD (Nat.succ i) d ∈ a :: s) = decide (l.getD i d ∈ s)
      rw [List.getD_cons_succ]
      apply decide_eq_decide.mpr
      constructor
      · intro h
        rcases List.mem_cons.mp h with h | h
        · exact absurd h hne
        · exact h
      · exact fun h => List.mem_cons.mpr (Or.inr h)
    rw [List.map_cons, List.indexOf_cons_self, map_indexOf_cons ha hsub.subset,
      List.length_cons, List.range_succ_eq_map, List.filter_cons,
      if_pos (by simp), List.filter_map, List.filter_congr hcongr, ih hl]

theorem filter_map_indexOf (d : String) (r : List String) :
    ∀ {l : List String}, l.Nodup →
      (l.filter (fun x => decide (x ∉ r))).map (fun x => l.indexOf x) =
        (List.range l.length).filter (fun i => decide (l.getD i d ∉ r)) := by
  intro l
  induction l with
  | nil => intro _; rfl
  | cons a t ih =>
    intro hnodup
    obtain ⟨ha, ht⟩ := List.nodup_cons.mp hnodup
    have hsubset : ∀ x ∈ t.filter (fun x => decide (x ∉ r)), x ∈ t :=
      fun x hx => List.mem_of_mem_filter hx
    have hcomp : ((fun i => decide ((a :: t).getD i d ∉ r)) ∘ Nat.succ) =
        (fun i => decide (t.getD i d ∉ r)) := by
      funext i
      simp [Function.comp, List.getD_cons_succ]
    have hplus : ∀ (xs : List Nat), xs.map Nat.succ = xs.map (· + 1) :=
      fun xs => List.map_congr_left (fun i _ => Nat.succ_eq_add_one i)
    rw [List.length_cons, List.range_succ_eq_map, List.filter_cons, List.filter_cons]
    by_cases har : a ∈ r
    · rw [if_neg (by simp [har]), if_neg (by simp [har]), List.filter_map, hcomp,
        map_indexOf_cons ha hsubset, ih ht, hplus]
    · rw [if_pos (by simp [har]), if_pos (by simp [har]), List.map_cons,
        List.indexOf_cons_self, List.filter_map, hcomp,
        map_indexOf_cons ha hsubset, ih ht, hplus]

theorem map_getD_range {α : Type} (d : α) : ∀ (l : List α),
    (List.range l.length).map (fun i => l.getD i d) = l := by
  intro l
  induction l with
  | nil => rfl
  | cons a t ih =>
    rw [List.length_cons, List.range_succ_eq_map, List.map_cons, List.map_map]
    have hcomp : ((fun i => (a :: t).getD i d) ∘ Nat.succ) = (fun i => t.getD i d) := by
      funext i
      simp [Function.comp, List.getD_cons_succ]
    rw [List.getD_cons_zero, hcomp, ih]

theorem ix_range_range {K : Mat} {n : Nat} (hlen : K.length = n)
    (hrows : ∀ row ∈ K, row.length = n) :
    ix K (List.range n) (List.range n) = K := by
  subst hlen
  unfold ix
  have hinner : ∀ i ∈ List.range K.length,
      (List.range K.length).map (fun j => (K.getD i []).getD j 0) = K.getD i [] := by
    intro i hi
    have hi' : i < K.length := List.mem_range.mp hi
    have hrow := hrows _ (getD_mem_of_lt [] hi')
    calc (List.range K.length).map (fun j => (K.getD i []).getD j 0)
        = (List.range (K.getD i []).length).map (fun j => (K.getD i []).getD j 0) := by
          rw [hrow]
      _ = K.getD i [] := map_getD_range 0 _
  rw [List.map_congr_left hinner, map_getD_range]

theorem map_indexOf_self {l : List String} (hnodup : l.Nodup) :
    l.map (fun x => l.indexOf x) = List.range l.length := by
  have hmem : ∀ i ∈ List.range l.length, decide (l.getD i "" ∈ l) = true := by
    intro i hi
    exact decide_eq_true (getD_mem_of_lt "" (List.mem_range.mp hi))
  rw [map_indexOf_sublist "" (List.Sublist.refl l) hnodup, List.filter_eq_self.mpr hmem]

theorem sortPairs_of_pairwise : ∀ {l : List (Nat × ℚ)},
    l.Pairwise (fun p q => p.1 < q.1) → sortPairs l = l := by
  intro l
  induction l with
  | nil => intro _; rfl
  | cons p rest ih =>
    intro hp
    obtain ⟨h1, h2⟩ := List.pairwise_cons.mp hp
    rw [sortPairs, ih h2]
    cases rest with
    | nil => rfl
    | cons q rest' =>
      have hlt : p.1 < q.1 := h1 q (List.mem_cons_self _ _)
      simp [insertPair, hlt]

theorem pairwise_zip_range (n : Nat) (y : List ℚ) :
    ((List.range n).zip y).Pairwise (fun p q => p.1 < q.1) := by
  rw [List.pairwise_iff_getElem]
  intro i j hi hj hij
  simp only [List.getElem_zip, List.getElem_range]
  exact hij

theorem zip_map_indexOf : ∀ {l : List String} (y : List ℚ), l.Nodup →
    (l.zip y).map (fun p => (l.indexOf p.1, p.2)) = (List.range l.length).zip y := by
  intro l
  induction l with
  | nil => intro y _; rfl
  | cons a t ih =>
    intro y hnodup
    obtain ⟨ha, ht⟩ := List.nodup_cons.mp hnodup
    cases y with
    | nil => simp [List.zip_nil_right]
    | cons b ys =>
      have hstep : ∀ p ∈ t.zip ys,
          ((a :: t).indexOf p.1, p.2) = ((fun p : Nat × ℚ => (p.1 + 1, p.2)) ∘
            (fun p : String × ℚ => (t.indexOf p.1, p.2))) p := by
        intro p hp
        obtain ⟨p1, p2⟩ := p
        have hpt : p1 ∈ t := (List.of_mem_zip hp).1
        have hne : a ≠ p1 := fun h => ha (h ▸ hpt)
        simp [Function.comp, List.indexOf_cons_ne _ hne, Nat.succ_eq_add_one]
      calc ((a :: t).zip (b :: ys)).map (fun p => ((a :: t).indexOf p.1, p.2))
          = (0, b) :: (t.zip ys).map (fun p => ((a :: t).indexOf p.1, p.2)) := by
            simp [List.indexOf_cons_self]
        _ = (0, b) :: ((t.zip ys).map (fun p => (t.indexOf p.1, p.2))).map
              (fun p : Nat × ℚ => (p.1 + 1, p.2)) := by
            rw [List.map_map, List.map_congr_left hstep]
        _ = (0, b) :: ((List.range t.length).zip ys).map
              (fun p : Nat × ℚ => (p.1 + 1, p.2)) := by rw [ih ys ht]
        _ = (List.range (t.length + 1)).zip (b :: ys) := by
            rw [List.range_succ_eq_map, List.zip_cons_cons, List.zip_map_left]
            congr 1

theorem vsub_replicate_zero : ∀ (l : List ℚ) (n : Nat), l.length = n →
    vsub l (List.replicate n 0) = l := by
  intro l
  induction l with
  | nil => intro n _; simp [vsub]
  | cons a t ih =>
    intro n hn
    cases n with
    | zero => exact absurd hn (by simp)
    | succ n' =>
      simp only [List.replicate, vsub, List.zipWith_cons_cons, sub_zero]
      have := ih n' (by simpa using hn)
      simpa [vsub] using this

theorem dot_finRange_map : ∀ (n : Nat) (g : Fin n → ℚ) (v : List ℚ),
    dot ((List.finRange n).map g) v = ∑ j : Fin n, g j * v.getD j.val 0 := by
  intro n
  induction n with
  | zero => intro g v; simp [dot, List.finRange]
  | succ n ih =>
    intro g v
    rw [List.finRange_succ_eq_map, List.map_cons, List.map_map]
    cases v with
    | nil =>
      simp [dot, List.getD_nil]
    | cons b bs =>
      have hdot : dot (g 0 :: (List.finRange n).map (g ∘ Fin.succ)) (b :: bs) =
          g 0 * b + dot ((List.finRange n).map (g ∘ Fin.succ)) bs := by
        simp [dot, List.zipWith_cons_cons]
      rw [hdot, ih (g ∘ Fin.succ) bs, Fin.sum_univ_succ]
      simp [Function.comp, List.getD_cons_zero, List.getD_cons_succ]

theorem getD_set_ne {α : Type} (d : α) : ∀ (l : List α) (i j : Nat) (m : α), i ≠ j →
    (l.set i m).getD j d = l.getD j d := by
  intro l
  induction l with
  | nil => intro i j m _; simp
  | cons a t ih =>
    intro i j m hij
    cases i with
    | zero =>
      cases j with
      | zero => exact absurd rfl hij
      | succ j' => simp [List.getD_cons_succ]
    | succ i' =>
      cases j with
      | zero => simp [List.set_cons_succ, List.getD_cons_zero]
      | succ j' =>
        rw [List.set_cons_succ, List.getD_cons_succ, List.getD_cons_succ]
        exact ih i' j' m (fun h => hij (by rw [h]))

theorem read_alloc_lt {σ : Heap} {r : Nat} (m : Mat) (h : r < σ.mats.length) :
    (σ.alloc m).1.read r = σ.read r := by
  simp only [Heap.alloc, Heap.read]
  exact List.getD_append _ _ _ _ h

theorem read_alloc_self (σ : Heap) (m : Mat) :
    (σ.alloc m).1.read σ.mats.length = m := by
  simp only [Heap.alloc, Heap.read]
  rw [List.getD_append_right _ _ _ _ (le_refl _), Nat.sub_self]
  rfl

theorem ofMat_getElem (n : Nat) (M : Matrix (Fin n) (Fin n) ℚ) (i : Nat)
    (hi : i < (ofMat n M).length) :
    (ofMat n M)[i] = (List.finRange n).map
      (fun j => M ⟨i, by simpa [ofMat, List.length_finRange] using hi⟩ j) := by
  unfold ofMat
  rw [List.getElem_map, List.getElem_finRange]
  rfl

theorem ofMat_length (n : Nat) (M : Matrix (Fin n) (Fin n) ℚ) :
    (ofMat n M).length = n := by
  simp [ofMat, List.length_finRange]

theorem ofMat_entry (n : Nat) (M : Matrix (Fin n) (Fin n) ℚ) (i j : Fin n) :
    (((ofMat n M).getD i.val []).getD j.val 0) = M i j := by
  have hi : i.val < (ofMat n M).length := by simp [ofMat_length]
  rw [List.getD_eq_getElem _ _ hi, ofMat_getElem n M i.val hi]
  have hj : j.val < ((List.finRange n).map
      (fun j => M ⟨i.val, i.isLt⟩ j)).length := by
    simp [List.length_finRange]
  rw [List.getD_eq_getElem _ _ hj, List.getElem_map, List.getElem_finRange]
  rfl

theorem toMat_ofMat (n : Nat) (M : Matrix (Fin n) (Fin n) ℚ) :
    toMat n (ofMat n M) = M := by
  ext i j
  show (((ofMat n M).getD i.val []).getD j.val 0) = M i j
  exact ofMat_entry n M i j

theorem matVec_ofMat (n : Nat) (M : Matrix (Fin n) (Fin n) ℚ) (v : List ℚ) :
    toVecF n (matVec (ofMat n M) v) = M.mulVec (toVecF n v) := by
  funext i
  show ((ofMat n M).map (fun row => dot row v)).getD i.val 0 = M.mulVec (toVecF n v) i
  have hi : i.val < ((ofMat n M).map (fun row => dot row v)).length := by
    simp [List.length_map, ofMat_length]
  have hi2 : i.val < (ofMat n M).length := by simp [ofMat_length]
  rw [List.getD_eq_getElem _ _ hi, List.getElem_map, ofMat_getElem n M i.val hi2,
    dot_finRange_map]
  simp [Matrix.mulVec, Matrix.dotProduct, toVecF, List.getD_eq_getElem?_getD]

theorem colToList_listToCol (h : List ℚ) : colToList (listToCol h) = h := by
  unfold colToList listToCol
  rw [List.map_map]
  exact List.map_congr_left (fun q _ => rfl) |>.trans (List.map_id h)

/-! ### Claim theorems -/

/-- C1: for a scope of distinct variables and a `values` list naming a
subset of the scope with the pairs in the scope's relative order, `reduce`
produces exactly the conditional canonical form stated by the spec:
`K' = K_kk`, `h' = h_k − K_kr·y`, `g' = g + h_r.T·y − 0.5·y.T·K_rr·y`, with
the blocks extracted at original-scope index positions (the numeric content
of the stored `g` is the scalar `g'`). -/
theorem claim1_reduce_matches_spec (f : CanonicalFactor) (values : List (String × ℚ))
    (hnodup : f.vars.Nodup) (hsub : (values.map Prod.fst).Sublist f.vars) :
    (reduceCore f values).vars = (reduceSpec f values).scope ∧
    (reduceCore f values).K = (reduceSpec f values).K ∧
    (reduceCore f values).h = (reduceSpec f values).h ∧
    (reduceCore f values).g = GVal.mat [[(reduceSpec f values).g]] := by
  have e1 : (values.map Prod.fst).map (fun x => f.vars.indexOf x) =
      (List.range f.vars.length).filter
        (fun i => decide (f.vars.getD i "" ∈ values.map Prod.fst)) :=
    map_indexOf_sublist "" hsub hnodup
  have e2 : (f.vars.filter (fun x => decide (x ∉ values.map Prod.fst))).map
        (fun x => f.vars.indexOf x) =
      (List.range f.vars.length).filter
        (fun i => decide (f.vars.getD i "" ∉ values.map Prod.fst)) :=
    filter_map_indexOf "" (values.map Prod.fst) hnodup
  simp only [reduceCore, reduceSpec]
  rw [e1, e2]
  exact ⟨rfl, rfl, rfl, rfl⟩

/-- C1 witness: the worked example — scope `[X1,X2,X3]`,
`K = [[1,-1,0],[-1,4,-2],[0,-2,4]]`, `h = [1,4,-1]`, `g = -2`, reducing
`X3 = 0.25` yields scope `[X1,X2]`, `K' = [[1,-1],[-1,4]]`, `h' = [1,4.5]`
and `g'` with numeric content `-2.375`. -/
theorem claim1_witness :
    (["X1", "X2", "X3"] : List String).Nodup ∧
    (([(("X3" : String), (1 : ℚ) / 4)].map Prod.fst).Sublist ["X1", "X2", "X3"]) ∧
    ((reduceCore exampleFactor [("X3", 1 / 4)]).vars =
        (reduceSpec exampleFactor [("X3", 1 / 4)]).scope ∧
      (reduceCore exampleFactor [("X3", 1 / 4)]).K =
        (reduceSpec exampleFactor [("X3", 1 / 4)]).K ∧
      (reduceCore exampleFactor [("X3", 1 / 4)]).h =
        (reduceSpec exampleFactor [("X3", 1 / 4)]).h ∧
      (reduceCore exampleFactor [("X3", 1 / 4)]).g =
        GVal.mat [[(reduceSpec exampleFactor [("X3", 1 / 4)]).g]]) ∧
    reduceCore exampleFactor [("X3", 1 / 4)] =
      { vars := ["X1", "X2"], K := [[1, -1], [-1, 4]], h := [1, 9 / 2],
        g := GVal.mat [[-19 / 8]], pdf := none } := by
  refine ⟨by decide, by decide,
    claim1_reduce_matches_spec exampleFactor [("X3", 1 / 4)] (by decide) (by decide), ?_⟩
  simp +decide only [reduceCore, exampleFactor, ix, dot, matVec, vsub, quadForm, sortPairs,
    insertPair, GVal.toQ, List.indexOf_cons, List.filter, List.map, List.getD, cond,
    List.zipWith, List.sum, CanonicalFactor.mk.injEq, String.reduceBEq, String.reduceEq]
  norm_num

/-- C2 (refuted): the order in which the `(variable, value)` pairs are
supplied changes the result.  On the worked example, observing `X2 = 1` and
`X3 = 0.25` gives `h' = [2]` when supplied in scope order but `h' = [1.25]`
when supplied in the opposite order: the observation vector `y` is sorted
by original-scope index while the `K`/`h` blocks are extracted in supply
order, so the values are paired with the wrong rows. -/
theorem claim2_order_dependence :
    (reduceCore exampleFactor [("X2", 1), ("X3", 1 / 4)]).h = [2] ∧
    (reduceCore exampleFactor [("X3", 1 / 4), ("X2", 1)]).h = [5 / 4] := by
  constructor <;>
    (simp +decide only [reduceCore, exampleFactor, ix, dot, matVec, vsub, quadForm,
      sortPairs, insertPair, GVal.toQ, List.indexOf_cons, List.filter, List.map,
      List.getD, cond, List.zipWith, List.sum, String.reduceBEq, String.reduceEq]
     norm_num)

/-- C3 (code slip): construction with `h` of mismatched length fails with
the `ValueError`; construction with `K` of mismatched shape fails, but with
an `AttributeError` (the error message references the non-existent
attribute `self.covariance`), not with a shape-mismatch `ValueError` naming
the expected and actual shapes; consistent dimensions succeed with no
further validation. -/
theorem claim3_shape_error_behaviour :
    CanonicalFactor.init ["X", "Y"] [[1]] [1, 2] 0 none =
      .error PyError.attributeError ∧
    CanonicalFactor.init ["X", "Y"] [[1, 0], [0, 1]] [1] 0 none =
      .error PyError.valueError ∧
    CanonicalFactor.init ["X", "Y"] [[1, 0], [0, 1]] [1, 2] 0 none =
      .ok { vars := ["X", "Y"], K := [[1, 0], [0, 1]], h := [1, 2],
            g := GVal.scalar 0, pdf := none } :=
  ⟨rfl, rfl, rfl⟩

/-- C9 counterexample: after reducing `X3 = 0.25` on the worked example, the
stored `g` is not a Python scalar (it is a `1 × 1` numpy array). -/
theorem claim9_counterexample :
    ((reduceCore exampleFactor [("X3", 1 / 4)]).g).isScalar = false := rfl

/-- C9 (amended): `g` is a scalar as stored at construction, but after every
`reduce` the stored `g` is a `1 × 1` array (whose sole entry carries the
updated value), not a scalar. -/
theorem reduceCore_g_is_one_by_one (f : CanonicalFactor) (values : List (String × ℚ)) :
    ∃ q : ℚ, (reduceCore f values).g = GVal.mat [[q]] := ⟨_, rfl⟩

theorem claim9_amended (vs : List String) (K : Mat) (h : List ℚ) (g : ℚ)
    (f : CanonicalFactor) (values : List (String × ℚ))
    (hf : CanonicalFactor.init vs K h g none = .ok f) :
    f.g = GVal.scalar g ∧ ∃ q : ℚ, (reduceCore f values).g = GVal.mat [[q]] := by
  refine ⟨?_, reduceCore_g_is_one_by_one f values⟩
  unfold CanonicalFactor.init at hf
  by_cases h1 : h.length ≠ vs.length
  · rw [if_pos h1] at hf
    cases hf
  · rw [if_neg h1] at hf
    by_cases h2 : K.length = vs.length ∧ ∀ row ∈ K, row.length = vs.length
    · rw [if_pos h2] at hf
      cases hf
      rfl
    · rw [if_neg h2] at hf
      cases hf

/-- C9 witness: the amendment at a concrete construction and reduction. -/
theorem claim9_witness :
    CanonicalFactor.init ["X"] [[1]] [1] 0 none = .ok smallFactor ∧
    (smallFactor.g = GVal.scalar 0 ∧
      ∃ q : ℚ, (reduceCore smallFactor [("X", 1)]).g = GVal.mat [[q]]) :=
  ⟨rfl, claim9_amended ["X"] [[1]] [1] 0 smallFactor [("X", 1)] rfl⟩

/-- C10: reducing with an empty `values` list succeeds, preserves the scope,
`K` and `h`, leaves the numeric content of `g` unchanged, and still resets
the bound density function to absent. -/
theorem claim10_empty_reduce (f : CanonicalFactor) (hnodup : f.vars.Nodup)
    (hKlen : f.K.length = f.vars.length)
    (hKrows : ∀ row ∈ f.K, row.length = f.vars.length)
    (hh : f.h.length = f.vars.length) :
    (reduceCore f []).vars = f.vars ∧ (reduceCore f []).K = f.K ∧
    (reduceCore f []).h = f.h ∧ ((reduceCore f []).g).toQ = f.g.toQ ∧
    (reduceCore f []).pdf = none := by
  have hfil : f.vars.filter (fun v => decide (v ∉ ([] : List String))) = f.vars :=
    List.filter_eq_self.mpr (fun a _ => by simp)
  have hitk : (f.vars.filter (fun v => decide (v ∉ ([] : List String)))).map
      (fun v => f.vars.indexOf v) = List.range f.vars.length := by
    rw [hfil, map_indexOf_self hnodup]
  simp only [reduceCore, List.map_nil, sortPairs]
  rw [hitk]
  refine ⟨map_getD_range "" f.vars, ix_range_range hKlen hKrows, ?_, ?_, trivial⟩
  · have hzero : matVec (ix f.K (List.range f.vars.length) []) [] =
        List.replicate f.vars.length (0 : ℚ) := by
      unfold matVec ix
      rw [List.map_map]
      have h1 : ∀ i ∈ List.range f.vars.length,
          ((fun row => dot row []) ∘
            (fun i => List.map (fun j => (f.K.getD i []).getD j 0) [])) i
            = (fun _ => (0 : ℚ)) i := fun i _ => rfl
      rw [List.map_congr_left h1, List.map_const', List.length_range]
    rw [hzero]
    have hmap : (List.range f.vars.length).map (fun i => f.h.getD i 0) = f.h := by
      rw [← hh]
      exact map_getD_range 0 f.h
    rw [hmap]
    exact vsub_replicate_zero f.h f.vars.length hh
  · show GVal.toQ (GVal.mat [[f.g.toQ + dot [] [] - (1 / 2) * quadForm [] (ix f.K [] [])]]) =
      f.g.toQ
    rw [GVal.toQ]
    simp only [List.getD_cons_zero]
    have hdot : dot ([] : List ℚ) [] = 0 := rfl
    have hquad : quadForm [] (ix f.K [] []) = 0 := rfl
    rw [hdot, hquad]
    ring

/-- C10 witness: empty reduction on the worked example. -/
theorem claim10_witness :
    (exampleFactor.vars.Nodup ∧ exampleFactor.K.length = exampleFactor.vars.length ∧
      (∀ row ∈ exampleFactor.K, row.length = exampleFactor.vars.length) ∧
      exampleFactor.h.length = exampleFactor.vars.length) ∧
    ((reduceCore exampleFactor []).vars = exampleFactor.vars ∧
      (reduceCore exampleFactor []).K = exampleFactor.K ∧
      (reduceCore exampleFactor []).h = exampleFactor.h ∧
      ((reduceCore exampleFactor []).g).toQ = exampleFactor.g.toQ ∧
      (reduceCore exampleFactor []).pdf = none) :=
  ⟨⟨by decide, by decide, by decide, by decide⟩,
    claim10_empty_reduce exampleFactor (by decide) (by decide) (by decide) (by decide)⟩

/-- Full reduction with the pairs supplied in scope order (the scope zipped
with the observation vector `y`): empty scope, `0 × 0` `K`, length-0 `h`,
and a stored `g` carrying `g + h.T·y − 0.5·y.T·K·y` over the entire
original `y`. -/
theorem reduceCore_full_scope_order (f : CanonicalFactor) (y : List ℚ)
    (hnodup : f.vars.Nodup) (hy : y.length = f.vars.length)
    (hKlen : f.K.length = f.vars.length)
    (hKrows : ∀ row ∈ f.K, row.length = f.vars.length)
    (hh : f.h.length = f.vars.length) :
    (reduceCore f (f.vars.zip y)).vars = [] ∧
    (reduceCore f (f.vars.zip y)).K = [] ∧
    (reduceCore f (f.vars.zip y)).h = [] ∧
    (reduceCore f (f.vars.zip y)).g =
      GVal.mat [[f.g.toQ + dot f.h y - (1 / 2) * quadForm y f.K]] := by
  have hfst : (f.vars.zip y).map Prod.fst = f.vars :=
    List.map_fst_zip f.vars y (by rw [hy])
  have hfil : f.vars.filter (fun v => decide (v ∉ f.vars)) = [] :=
    List.filter_eq_nil_iff.mpr (fun a ha => by simp [ha])
  have hyexpr : ((f.vars.zip y).map (fun p => (f.vars.indexOf p.1, p.2))) =
      (List.range f.vars.length).zip y := zip_map_indexOf y hnodup
  have hsort : sortPairs ((List.range f.vars.length).zip y) =
      (List.range f.vars.length).zip y :=
    sortPairs_of_pairwise (pairwise_zip_range _ _)
  have hysnd : ((List.range f.vars.length).zip y).map Prod.snd = y :=
    List.map_snd_zip _ _ (by rw [List.length_range, hy])
  have hitr : f.vars.map (fun v => f.vars.indexOf v) = List.range f.vars.length :=
    map_indexOf_self hnodup
  have hhj : (List.range f.vars.length).map (fun i => f.h.getD i 0) = f.h := by
    rw [← hh]
    exact map_getD_range 0 f.h
  have hKjj : ix f.K (List.range f.vars.length) (List.range f.vars.length) = f.K :=
    ix_range_range hKlen hKrows
  simp only [reduceCore]
  rw [hfst, hfil, hyexpr, hsort, hysnd, hitr, hhj, hKjj]
  exact ⟨rfl, rfl, rfl, rfl⟩

/-- C6 counterexample: on the worked example with observations `X1 = 1`,
`X2 = 2`, `X3 = 0.25` supplied as `[(X3, 0.25), (X1, 1), (X2, 2)]`, the
full reduction stores `g' = -25/8`, while
`g + h.T·y − 0.5·y.T·K·y` over the original observation vector
`y = (1, 2, 1/4)` is `9/8`: the order-free claim is false, because the
`h`/`K` blocks follow the supply order while `y` is sorted by
original-scope index. -/
theorem claim6_counterexample :
    ((reduceCore exampleFactor [("X3", 1 / 4), ("X1", 1), ("X2", 2)]).g).toQ = -25 / 8 ∧
    exampleFactor.g.toQ + dot exampleFactor.h [1, 2, 1 / 4]
      - (1 / 2) * quadForm [1, 2, 1 / 4] exampleFactor.K = 9 / 8 ∧
    ((reduceCore exampleFactor [("X3", 1 / 4), ("X1", 1), ("X2", 2)]).g).toQ ≠
      exampleFactor.g.toQ + dot exampleFactor.h [1, 2, 1 / 4]
        - (1 / 2) * quadForm [1, 2, 1 / 4] exampleFactor.K := by
  have h1 : ((reduceCore exampleFactor [("X3", 1 / 4), ("X1", 1), ("X2", 2)]).g).toQ =
      -25 / 8 := by
    simp +decide only [reduceCore, exampleFactor, ix, dot, matVec, vsub, quadForm,
      sortPairs, insertPair, GVal.toQ, List.indexOf_cons, List.filter, List.map,
      List.getD, cond, List.zipWith, List.sum, String.reduceBEq, String.reduceEq]
    norm_num
  have h2 : exampleFactor.g.toQ + dot exampleFactor.h [1, 2, 1 / 4]
      - (1 / 2) * quadForm [1, 2, 1 / 4] exampleFactor.K = 9 / 8 := by
    simp only [exampleFactor, dot, quadForm, matVec, GVal.toQ, List.map, List.getD,
      List.zipWith, List.sum]
    norm_num
  exact ⟨h1, h2, by rw [h1, h2]; norm_num⟩

/-- C6 (amended): reducing on every variable of the scope succeeds in any
supply order and yields an empty scope, a `0 × 0` `K` and a length-0 `h`;
when the pairs are supplied in scope order, the stored `g` is the `1 × 1`
array with entry `g + h.T·y − 0.5·y.T·K·y` over the entire original
observation vector `y` (for a permuted supply order the stored value
differs in general, because the `h`/`K` blocks follow the supply order
while `y` is sorted by original-scope index). -/
theorem claim6_full_reduction_amended (f : CanonicalFactor)
    (values : List (String × ℚ)) (y : List ℚ)
    (hcover : ∀ v ∈ f.vars, v ∈ values.map Prod.fst)
    (hnodup : f.vars.Nodup) (hy : y.length = f.vars.length)
    (hKlen : f.K.length = f.vars.length)
    (hKrows : ∀ row ∈ f.K, row.length = f.vars.length)
    (hh : f.h.length = f.vars.length) :
    ((reduceCore f values).vars = [] ∧ (reduceCore f values).K = [] ∧
      (reduceCore f values).h = []) ∧
    (reduceCore f (f.vars.zip y)).g =
      GVal.mat [[f.g.toQ + dot f.h y - (1 / 2) * quadForm y f.K]] := by
  constructor
  · have hfil : f.vars.filter (fun v => decide (v ∉ values.map Prod.fst)) = [] :=
      List.filter_eq_nil_iff.mpr (fun a ha => by simp [hcover a ha])
    simp only [reduceCore]
    rw [hfil]
    exact ⟨rfl, rfl, rfl⟩
  · exact (reduceCore_full_scope_order f y hnodup hy hKlen hKrows hh).2.2.2

/-- C6 witness: fully reducing the worked example, with the empty-result
part exercised at the permuted supply order `[(X3, 1/4), (X1, 1), (X2, 2)]`
and the `g` formula at the scope-order supply `y = (1, 2, 1/4)`. -/
theorem claim6_witness :
    ((∀ v ∈ exampleFactor.vars,
        v ∈ [(("X3" : String), (1 : ℚ) / 4), ("X1", 1), ("X2", 2)].map Prod.fst) ∧
      exampleFactor.vars.Nodup ∧
      ([(1 : ℚ), 2, 1 / 4].length = exampleFactor.vars.length) ∧
      exampleFactor.K.length = exampleFactor.vars.length ∧
      (∀ row ∈ exampleFactor.K, row.length = exampleFactor.vars.length) ∧
      exampleFactor.h.length = exampleFactor.vars.length) ∧
    (((reduceCore exampleFactor [("X3", 1 / 4), ("X1", 1), ("X2", 2)]).vars = [] ∧
        (reduceCore exampleFactor [("X3", 1 / 4), ("X1", 1), ("X2", 2)]).K = [] ∧
        (reduceCore exampleFactor [("X3", 1 / 4), ("X1", 1), ("X2", 2)]).h = []) ∧
      (reduceCore exampleFactor (exampleFactor.vars.zip [1, 2, 1 / 4])).g =
        GVal.mat [[exampleFactor.g.toQ + dot exampleFactor.h [1, 2, 1 / 4]
          - (1 / 2) * quadForm [1, 2, 1 / 4] exampleFactor.K]]) :=
  ⟨⟨by decide, by decide, by decide, by decide, by decide, by decide⟩,
    claim6_full_reduction_amended exampleFactor [("X3", 1 / 4), ("X1", 1), ("X2", 2)]
      [1, 2, 1 / 4] (by decide) (by decide) (by decide) (by decide) (by decide) (by decide)⟩

/-- C4: when `K` is invertible, `to_joint_gaussian` returns a moment-form
Gaussian with the same scope whose covariance is a two-sided inverse of `K`
and whose mean solves `K · mean = h` (i.e. `mean = K⁻¹·h`); when `K` is
singular the conversion fails with the singular-matrix error, with no
fallback. -/
theorem claim4_to_joint_gaussian (f : CanonicalFactor) (n : Nat)
    (hKlen : f.K.length = n) (hKrows : ∀ row ∈ f.K, row.length = n)
    (hh : f.h.length = n) :
    ((toMat n f.K).det ≠ 0 →
      ∃ jgd, f.to_joint_gaussian = .ok jgd ∧ jgd.vars = f.vars ∧
        toMat n jgd.covariance * toMat n f.K = 1 ∧
        toMat n f.K * toMat n jgd.covariance = 1 ∧
        (toMat n f.K).mulVec (toVecF n jgd.mean) = toVecF n f.h) ∧
    ((toMat n f.K).det = 0 → f.to_joint_gaussian = .error PyError.linAlgError) := by
  subst hKlen
  constructor
  · intro hdet
    have hok : f.to_joint_gaussian = .ok
        { vars := f.vars,
          mean := matVec (ofMat f.K.length
            (((toMat f.K.length f.K).det)⁻¹ • (toMat f.K.length f.K).adjugate)) f.h,
          covariance := ofMat f.K.length
            (((toMat f.K.length f.K).det)⁻¹ • (toMat f.K.length f.K).adjugate) } := by
      unfold CanonicalFactor.to_joint_gaussian npLinalgInv
      rw [if_neg hdet]
    refine ⟨_, hok, rfl, ?_, ?_, ?_⟩
    · rw [toMat_ofMat, Matrix.smul_mul, Matrix.adjugate_mul, smul_smul,
        inv_mul_cancel₀ hdet, one_smul]
    · rw [toMat_ofMat, Matrix.mul_smul, Matrix.mul_adjugate, smul_smul,
        inv_mul_cancel₀ hdet, one_smul]
    · show (toMat f.K.length f.K).mulVec (toVecF f.K.length (matVec (ofMat f.K.length
        (((toMat f.K.length f.K).det)⁻¹ • (toMat f.K.length f.K).adjugate)) f.h)) =
        toVecF f.K.length f.h
      rw [matVec_ofMat, Matrix.mulVec_mulVec, Matrix.mul_smul, Matrix.mul_adjugate,
        smul_smul, inv_mul_cancel₀ hdet, one_smul, Matrix.one_mulVec]
  · intro hdet
    unfold CanonicalFactor.to_joint_gaussian npLinalgInv
    rw [if_pos hdet]

theorem gaussFactor_det : (toMat 2 gaussFactor.K).det = 8 := by
  rw [Matrix.det_fin_two]
  show ((3 : ℚ) * 4 - -2 * -2) = 8
  norm_num

/-- C4 witness: the docstring example with `K = [[3,-2],[-2,4]]`,
`h = [5,-1]`: `K` is invertible, so the conversion succeeds and returns a
two-sided inverse covariance and a mean with `K · mean = h`. -/
theorem claim4_witness :
    (gaussFactor.K.length = 2 ∧ (∀ row ∈ gaussFactor.K, row.length = 2) ∧
      gaussFactor.h.length = 2 ∧ (toMat 2 gaussFactor.K).det ≠ 0) ∧
    (∃ jgd, gaussFactor.to_joint_gaussian = .ok jgd ∧ jgd.vars = gaussFactor.vars ∧
      toMat 2 jgd.covariance * toMat 2 gaussFactor.K = 1 ∧
      toMat 2 gaussFactor.K * toMat 2 jgd.covariance = 1 ∧
      (toMat 2 gaussFactor.K).mulVec (toVecF 2 jgd.mean) = toVecF 2 gaussFactor.h) := by
  have hdet : (toMat 2 gaussFactor.K).det ≠ 0 := by
    rw [gaussFactor_det]
    norm_num
  exact ⟨⟨by decide, by decide, by decide, hdet⟩,
    (claim4_to_joint_gaussian gaussFactor 2 (by decide) (by decide) (by decide)).1 hdet⟩

theorem alloc_length (σ : Heap) (m : Mat) :
    (σ.alloc m).1.mats.length = σ.mats.length + 1 := by
  simp [Heap.alloc]

theorem write_read_ne {τ : Heap} {a b : Nat} (m : Mat) (hne : a ≠ b) :
    (τ.write a m).read b = τ.read b :=
  getD_set_ne [] τ.mats a b m hne

/-- C5: `copy` produces a factor whose `K` and `h` live at fresh addresses
holding equal values; writing through the copy leaves the original arrays
unchanged; the scope, `g` and the (shared) density reference are equal. -/
theorem claim5_copy_independent (σ : Heap) (f : CFRef)
    (hK : f.Kref < σ.mats.length) (hh : f.href < σ.mats.length) :
    (copyRef σ f).2.Kref ≠ f.Kref ∧ (copyRef σ f).2.href ≠ f.href ∧
    (copyRef σ f).1.read (copyRef σ f).2.Kref = σ.read f.Kref ∧
    (copyRef σ f).1.read (copyRef σ f).2.href = σ.read f.href ∧
    (∀ m, ((copyRef σ f).1.write (copyRef σ f).2.Kref m).read f.Kref = σ.read f.Kref) ∧
    (∀ m, ((copyRef σ f).1.write (copyRef σ f).2.href m).read f.href = σ.read f.href) ∧
    (copyRef σ f).2.vars = f.vars ∧ (copyRef σ f).2.g = f.g ∧
    (copyRef σ f).2.pdf = f.pdf := by
  have hKaddr : (copyRef σ f).2.Kref = σ.mats.length := rfl
  have hhaddr : (copyRef σ f).2.href = σ.mats.length + 1 := by
    show ((σ.alloc (σ.read f.Kref)).1.alloc (σ.read f.href)).2 = σ.mats.length + 1
    show (σ.alloc (σ.read f.Kref)).1.mats.length = σ.mats.length + 1
    exact alloc_length σ _
  have hheap : (copyRef σ f).1 =
      ((σ.alloc (σ.read f.Kref)).1.alloc (σ.read f.href)).1 := rfl
  have holdK : (copyRef σ f).1.read f.Kref = σ.read f.Kref := by
    rw [hheap, read_alloc_lt _ (by rw [alloc_length]; omega), read_alloc_lt _ hK]
  have holdh : (copyRef σ f).1.read f.href = σ.read f.href := by
    rw [hheap, read_alloc_lt _ (by rw [alloc_length]; omega), read_alloc_lt _ hh]
  refine ⟨by omega, by omega, ?_, ?_, ?_, ?_, rfl, rfl, rfl⟩
  · rw [hKaddr, hheap, read_alloc_lt _ (by rw [alloc_length]; omega)]
    exact read_alloc_self σ _
  · rw [hhaddr, hheap]
    have hlen : σ.mats.length + 1 = (σ.alloc (σ.read f.Kref)).1.mats.length :=
      (alloc_length σ _).symm
    rw [hlen]
    exact read_alloc_self _ _
  · intro m
    rw [write_read_ne m (by omega), holdK]
  · intro m
    rw [write_read_ne m (by omega), holdh]

/-- C5 witness: a two-array heap with a one-variable factor; writing a new
array through the copy leaves the original intact. -/
theorem claim5_witness :
    ((⟨["X"], 0, 1, GVal.scalar 0, none⟩ : CFRef).Kref <
        (⟨[[[1]], [[2]]]⟩ : Heap).mats.length ∧
      (⟨["X"], 0, 1, GVal.scalar 0, none⟩ : CFRef).href <
        (⟨[[[1]], [[2]]]⟩ : Heap).mats.length) ∧
    ((copyRef ⟨[[[1]], [[2]]]⟩ ⟨["X"], 0, 1, GVal.scalar 0, none⟩).2.Kref ≠ 0 ∧
      (copyRef ⟨[[[1]], [[2]]]⟩ ⟨["X"], 0, 1, GVal.scalar 0, none⟩).2.href ≠ 1 ∧
      ((copyRef ⟨[[[1]], [[2]]]⟩ ⟨["X"], 0, 1, GVal.scalar 0, none⟩).1.write
          (copyRef ⟨[[[1]], [[2]]]⟩ ⟨["X"], 0, 1, GVal.scalar 0, none⟩).2.Kref [[9]]).read 0 =
        (⟨[[[1]], [[2]]]⟩ : Heap).read 0 ∧
      ((copyRef ⟨[[[1]], [[2]]]⟩ ⟨["X"], 0, 1, GVal.scalar 0, none⟩).1.write
          (copyRef ⟨[[[1]], [[2]]]⟩ ⟨["X"], 0, 1, GVal.scalar 0, none⟩).2.href [[9]]).read 1 =
        (⟨[[[1]], [[2]]]⟩ : Heap).read 1) := by
  have h := claim5_copy_independent ⟨[[[1]], [[2]]]⟩ ⟨["X"], 0, 1, GVal.scalar 0, none⟩
    (by decide) (by decide)
  exact ⟨⟨by decide, by decide⟩, h.1, h.2.1, h.2.2.2.2.1 [[9]], h.2.2.2.2.2.1 [[9]]⟩

theorem reduceCore_pdf (f : CanonicalFactor) (values : List (String × ℚ)) :
    (reduceCore f values).pdf = none := rfl

theorem canonical_eta (c : CanonicalFactor) (hp : c.pdf = none) :
    CanonicalFactor.mk c.vars c.K c.h c.g none = c := by
  cases c
  cases hp
  rfl

/-- C8: with `inplace=False`, `reduce` leaves `self` untouched (record and
referenced arrays) and returns a freshly allocated instance carrying the
reduced parameters; with `inplace=True` it mutates `self` to the reduced
parameters and returns `None`. -/
theorem claim8_inplace_flag (σ : Heap) (f : CFRef) (values : List (String × ℚ))
    (hK : f.Kref < σ.mats.length) (hh : f.href < σ.mats.length) :
    ((reduceRef σ f values false).2.1 = f ∧
      (reduceRef σ f values false).1.read f.Kref = σ.read f.Kref ∧
      (reduceRef σ f values false).1.read f.href = σ.read f.href ∧
      ∃ r, (reduceRef σ f values false).2.2 = some r ∧
        σ.mats.length ≤ r.Kref ∧ σ.mats.length ≤ r.href ∧
        r.toVal (reduceRef σ f values false).1 = reduceCore (f.toVal σ) values) ∧
    ((reduceRef σ f values true).2.2 = none ∧
      ((reduceRef σ f values true).2.1).toVal (reduceRef σ f values true).1 =
        reduceCore (f.toVal σ) values) := by
  have hreadK : ∀ (τ : Heap) (m : Mat),
      ((τ.alloc m).1.alloc (listToCol (reduceCore (f.toVal σ) values).h)).1.read
        τ.mats.length = m := by
    intro τ m
    rw [read_alloc_lt _ (by rw [alloc_length]; omega)]
    exact read_alloc_self τ m
  have hreadh : ∀ (τ : Heap) (m : Mat),
      ((τ.alloc m).1.alloc (listToCol (reduceCore (f.toVal σ) values).h)).1.read
        (τ.alloc m).1.mats.length = listToCol (reduceCore (f.toVal σ) values).h :=
    fun τ m => read_alloc_self _ _
  constructor
  · refine ⟨rfl, ?_, ?_, ?_⟩
    · show (((((σ.alloc (σ.read f.Kref)).1.alloc (σ.read f.href)).1.alloc
          (reduceCore (f.toVal σ) values).K).1.alloc
          (listToCol (reduceCore (f.toVal σ) values).h)).1).read f.Kref = σ.read f.Kref
      rw [read_alloc_lt _ (by rw [alloc_length, alloc_length, alloc_length]; omega),
        read_alloc_lt _ (by rw [alloc_length, alloc_length]; omega),
        read_alloc_lt _ (by rw [alloc_length]; omega),
        read_alloc_lt _ hK]
    · show (((((σ.alloc (σ.read f.Kref)).1.alloc (σ.read f.href)).1.alloc
          (reduceCore (f.toVal σ) values).K).1.alloc
          (listToCol (reduceCore (f.toVal σ) values).h)).1).read f.href = σ.read f.href
      rw [read_alloc_lt _ (by rw [alloc_length, alloc_length, alloc_length]; omega),
        read_alloc_lt _ (by rw [alloc_length, alloc_length]; omega),
        read_alloc_lt _ (by rw [alloc_length]; omega),
        read_alloc_lt _ hh]
    · refine ⟨_, rfl, ?_, ?_, ?_⟩
      · show σ.mats.length ≤
          ((σ.alloc (σ.read f.Kref)).1.alloc (σ.read f.href)).1.mats.length
        rw [alloc_length, alloc_length]
        omega
      · show σ.mats.length ≤
          (((σ.alloc (σ.read f.Kref)).1.alloc (σ.read f.href)).1.alloc
            (reduceCore (f.toVal σ) values).K).1.mats.length
        rw [alloc_length, alloc_length, alloc_length]
        omega
      · show CanonicalFactor.mk (reduceCore (f.toVal σ) values).vars
          (((((σ.alloc (σ.read f.Kref)).1.alloc (σ.read f.href)).1.alloc
            (reduceCore (f.toVal σ) values).K).1.alloc
            (listToCol (reduceCore (f.toVal σ) values).h)).1.read
              ((σ.alloc (σ.read f.Kref)).1.alloc (σ.read f.href)).1.mats.length)
          (colToList (((((σ.alloc (σ.read f.Kref)).1.alloc (σ.read f.href)).1.alloc
            (reduceCore (f.toVal σ) values).K).1.alloc
            (listToCol (reduceCore (f.toVal σ) values).h)).1.read
              (((σ.alloc (σ.read f.Kref)).1.alloc (σ.read f.href)).1.alloc
                (reduceCore (f.toVal σ) values).K).1.mats.length))
          (reduceCore (f.toVal σ) values).g none = reduceCore (f.toVal σ) values
        rw [hreadK, hreadh, colToList_listToCol]
        exact canonical_eta _ (reduceCore_pdf _ _)
  · refine ⟨rfl, ?_⟩
    show CanonicalFactor.mk (reduceCore (f.toVal σ) values).vars
        (((σ.alloc (reduceCore (f.toVal σ) values).K).1.alloc
          (listToCol (reduceCore (f.toVal σ) values).h)).1.read σ.mats.length)
        (colToList (((σ.alloc (reduceCore (f.toVal σ) values).K).1.alloc
          (listToCol (reduceCore (f.toVal σ) values).h)).1.read
            (σ.alloc (reduceCore (f.toVal σ) values).K).1.mats.length))
        (reduceCore (f.toVal σ) values).g none = reduceCore (f.toVal σ) values
    rw [hreadK, hreadh, colToList_listToCol]
    exact canonical_eta _ (reduceCore_pdf _ _)

/-- C8 witness: the inplace flag on a concrete one-variable heap factor. -/
theorem claim8_witness :
    ((⟨["X"], 0, 1, GVal.scalar 0, none⟩ : CFRef).Kref <
        (⟨[[[1]], [[2]]]⟩ : Heap).mats.length ∧
      (⟨["X"], 0, 1, GVal.scalar 0, none⟩ : CFRef).href <
        (⟨[[[1]], [[2]]]⟩ : Heap).mats.length) ∧
    ((reduceRef ⟨[[[1]], [[2]]]⟩ ⟨["X"], 0, 1, GVal.scalar 0, none⟩ [("X", 3)] false).2.1 =
        ⟨["X"], 0, 1, GVal.scalar 0, none⟩ ∧
      (reduceRef ⟨[[[1]], [[2]]]⟩ ⟨["X"], 0, 1, GVal.scalar 0, none⟩ [("X", 3)] false).1.read 0 =
        (⟨[[[1]], [[2]]]⟩ : Heap).read 0 ∧
      (∃ r, (reduceRef ⟨[[[1]], [[2]]]⟩ ⟨["X"], 0, 1, GVal.scalar 0, none⟩
          [("X", 3)] false).2.2 = some r ∧ 2 ≤ r.Kref ∧ 2 ≤ r.href ∧
        r.toVal (reduceRef ⟨[[[1]], [[2]]]⟩ ⟨["X"], 0, 1, GVal.scalar 0, none⟩
          [("X", 3)] false).1 =
          reduceCore ((⟨["X"], 0, 1, GVal.scalar 0, none⟩ : CFRef).toVal
            ⟨[[[1]], [[2]]]⟩) [("X", 3)]) ∧
      (reduceRef ⟨[[[1]], [[2]]]⟩ ⟨["X"], 0, 1, GVal.scalar 0, none⟩ [("X", 3)] true).2.2 =
        none) := by
  have h := claim8_inplace_flag ⟨[[[1]], [[2]]]⟩ ⟨["X"], 0, 1, GVal.scalar 0, none⟩
    [("X", 3)] (by decide) (by decide)
  exact ⟨⟨by decide, by decide⟩, h.1.1, h.1.2.1, h.1.2.2.2, h.2.1⟩

/-- C7: a factor constructed without a density function has an absent bound
density; the first pointwise-evaluation call (`assignment`) binds the
moment-form density, after which it is non-absent; any subsequent `reduce`
on the target instance resets it to absent. -/
theorem claim7_density_caching (vs : List String) (K : Mat) (h : List ℚ) (g : ℚ)
    (f : CanonicalFactor)
    (hf : CanonicalFactor.init vs K h g none = .ok f)
    (hdet : (toMat K.length K).det ≠ 0) :
    f.pdf = none ∧
    ∃ f2 d, f.assignment = .ok (f2, d) ∧ f2.pdf ≠ none ∧
      ∀ vals, (reduceCore f2 vals).pdf = none := by
  have hfeq : f = { vars := vs, K := K, h := h, g := GVal.scalar g, pdf := none } := by
    unfold CanonicalFactor.init at hf
    by_cases h1 : h.length ≠ vs.length
    · rw [if_pos h1] at hf
      cases hf
    · rw [if_neg h1] at hf
      by_cases h2 : K.length = vs.length ∧ ∀ row ∈ K, row.length = vs.length
      · rw [if_pos h2] at hf
        cases hf
        rfl
      · rw [if_neg h2] at hf
        cases hf
  subst hfeq
  have hok : (CanonicalFactor.mk vs K h (GVal.scalar g) none).to_joint_gaussian =
      .ok (JointGaussianDistribution.mk vs
        (matVec (ofMat K.length
          (((toMat K.length K).det)⁻¹ • (toMat K.length K).adjugate)) h)
        (ofMat K.length
          (((toMat K.length K).det)⁻¹ • (toMat K.length K).adjugate))) := by
    show (match npLinalgInv K with
      | none => Except.error PyError.linAlgError
      | some cov => Except.ok (JointGaussianDistribution.mk vs (matVec cov h) cov)) = _
    unfold npLinalgInv
    rw [if_neg hdet]
  refine ⟨rfl, CanonicalFactor.mk vs K h (GVal.scalar g)
      (some (JointGaussianDistribution.density (JointGaussianDistribution.mk vs
        (matVec (ofMat K.length
          (((toMat K.length K).det)⁻¹ • (toMat K.length K).adjugate)) h)
        (ofMat K.length
          (((toMat K.length K).det)⁻¹ • (toMat K.length K).adjugate))))),
    JointGaussianDistribution.density (JointGaussianDistribution.mk vs
      (matVec (ofMat K.length
        (((toMat K.length K).det)⁻¹ • (toMat K.length K).adjugate)) h)
      (ofMat K.length
        (((toMat K.length K).det)⁻¹ • (toMat K.length K).adjugate))),
    ?_, by simp, fun vals => reduceCore_pdf _ _⟩
  show CanonicalFactor.assignment _ = _
  unfold CanonicalFactor.assignment
  dsimp only
  rw [hok]

/-- C7 witness: the one-variable factor `K = [[1]]`, `h = [1]`, `g = 0`. -/
theorem claim7_witness :
    (CanonicalFactor.init ["X"] [[1]] [1] 0 none = .ok smallFactor ∧
      (toMat ([[ (1 : ℚ) ]] : Mat).length [[1]]).det ≠ 0) ∧
    (smallFactor.pdf = none ∧
      ∃ f2 d, smallFactor.assignment = .ok (f2, d) ∧ f2.pdf ≠ none ∧
        ∀ vals, (reduceCore f2 vals).pdf = none) := by
  have hdet : (toMat ([[ (1 : ℚ) ]] : Mat).length [[1]]).det ≠ 0 := by
    rw [Matrix.det_fin_one]
    show (1 : ℚ) ≠ 0
    norm_num
  exact ⟨⟨rfl, hdet⟩, claim7_density_caching ["X"] [[1]] [1] 0 smallFactor rfl hdet⟩

end PgmpyCanonical
